import Mathlib

/-!
Verification of the business-calendar engine of this repository
(scripts/workdates/workdays.py, scripts/workdates/utils/holidays_provider.py,
shared/src/shared_utils/date_utils.py), as a shallow embedding.

Dates are modelled as year/month/day triples (Python datetime.date), and sets
of blocked dates as sets of proleptic-Gregorian ordinals (Python
date.toordinal; ordinal 1 is January 1 of year 1, a Monday), since Python date
arithmetic (comparison, +1 day, set membership) coincides with ordinal
arithmetic on valid dates.  The external collaborators are parameters: the
workalendar Italy provider is an abstract function from a year to a set of
ordinals, and the closure-file directory is an abstract function from a year
to the optional line list of the file named from that year (none = missing
file).
-/

set_option maxHeartbeats 1000000

/-- A calendar date triple, as carried by Python datetime.date. -/
structure Ymd where
  y : Nat
  m : Nat
  d : Nat
deriving DecidableEq

/-- Gregorian leap-year rule (Python calendar/datetime). -/
def isLeap (y : Nat) : Bool :=
  (y % 4 == 0 && y % 100 != 0) || y % 400 == 0

/-- Length of a month (Python datetime._days_in_month). -/
def daysInMonth (y m : Nat) : Nat :=
  if m = 2 then (if isLeap y then 29 else 28)
  else if m = 4 ∨ m = 6 ∨ m = 9 ∨ m = 11 then 30
  else 31

/-- Days before the first of month m in year y (Python datetime._days_before_month). -/
def daysBeforeMonth (y : Nat) : Nat → Nat
  | 0 => 0
  | 1 => 0
  | Nat.succ m => daysBeforeMonth y m + daysInMonth y m

/-- The validity check enforced by the Python date constructor:
1 <= year <= 9999, 1 <= month <= 12, 1 <= day <= days in that month. -/
def validYmd (x : Ymd) : Prop :=
  1 ≤ x.y ∧ x.y ≤ 9999 ∧ 1 ≤ x.m ∧ x.m ≤ 12 ∧ 1 ≤ x.d ∧ x.d ≤ daysInMonth x.y x.m

instance validYmd_dec (x : Ymd) : Decidable (validYmd x) := by
  unfold validYmd; infer_instance

/-- Days before January 1 of year y (Python datetime._days_before_year). -/
def daysBeforeYear (y : Nat) : Nat :=
  365 * (y - 1) + (y - 1) / 4 - (y - 1) / 100 + (y - 1) / 400

/-- Python date.toordinal: ordinal 1 is 0001-01-01. -/
def toOrdinal (x : Ymd) : Nat :=
  daysBeforeYear x.y + daysBeforeMonth x.y x.m + x.d

/-- Python date.max.toordinal(), the _MAXORDINAL bound of the datetime
module: the ordinal of 9999-12-31.  Adding a one-day timedelta to a date
raises OverflowError exactly when the successor ordinal would exceed this
bound. -/
def dateMaxOrdinal : Nat := toOrdinal ⟨9999, 12, 31⟩

/-- Python date.weekday transported to ordinals: 0 = Monday, ..., 6 = Sunday
(ordinal 1, January 1 of year 1, is a Monday). -/
def pyWeekday (o : Nat) : Nat := (o + 6) % 7

/-- Python date strict comparison: lexicographic on (year, month, day). -/
def ymdLt (a b : Ymd) : Prop :=
  a.y < b.y ∨ (a.y = b.y ∧ (a.m < b.m ∨ (a.m = b.m ∧ a.d < b.d)))

instance ymdLt_dec (a b : Ymd) : Decidable (ymdLt a b) := by
  unfold ymdLt; infer_instance

/-- The Python str.isspace character set, which is both the set stripped by
str.strip() and the set matched by the regex whitespace class for str
patterns: U+0009-U+000D, U+001C-U+001F, space, U+0085, U+00A0, U+1680,
U+2000-U+200A, U+2028, U+2029, U+202F, U+205F and U+3000. -/
def isWS (c : Char) : Bool :=
  decide ((0x9 ≤ c.toNat ∧ c.toNat ≤ 0xd) ∨ (0x1c ≤ c.toNat ∧ c.toNat ≤ 0x1f) ∨
    c.toNat = 0x20 ∨ c.toNat = 0x85 ∨ c.toNat = 0xa0 ∨ c.toNat = 0x1680 ∨
    (0x2000 ≤ c.toNat ∧ c.toNat ≤ 0x200a) ∨ c.toNat = 0x2028 ∨ c.toNat = 0x2029 ∨
    c.toNat = 0x202f ∨ c.toNat = 0x205f ∨ c.toNat = 0x3000)

/-- Python str.strip: drop whitespace from both ends. -/
def pyStrip (cs : List Char) : List Char :=
  ((cs.dropWhile isWS).reverse.dropWhile isWS).reverse

def digitVal (c : Char) : Nat := c.toNat - '0'.toNat

/-- The two-digit alternatives of the strptime day field
(regex 3[01] or [12] digit or 0[1-9]; the one-digit alternative [1-9] is
tried only if these fail, matching the regex alternation order). -/
def dayTwoDigits (c0 c1 : Char) : Bool :=
  (c0 = '3' && (c1 = '0' || c1 = '1')) ||
  ((c0 = '1' || c0 = '2') && c1.isDigit) ||
  (c0 = '0' && ('1' ≤ c1 && c1 ≤ '9'))

/-- strptime %d field on the remaining input.  Committing to the two-digit
match when it applies is faithful: every separator that can follow the field
in the four formats is a non-digit, so regex backtracking from the two-digit
to the one-digit alternative can never lead to an overall match. -/
def parseDay : List Char → Option (Nat × List Char)
  | c0 :: c1 :: rest =>
    if dayTwoDigits c0 c1 then some (10 * digitVal c0 + digitVal c1, rest)
    else if '1' ≤ c0 && c0 ≤ '9' then some (digitVal c0, c1 :: rest)
    else none
  | [c0] => if '1' ≤ c0 && c0 ≤ '9' then some (digitVal c0, []) else none
  | [] => none

/-- The two-digit alternatives of the strptime month field
(regex 1[0-2] or 0[1-9]). -/
def monthTwoDigits (c0 c1 : Char) : Bool :=
  (c0 = '1' && (c1 = '0' || c1 = '1' || c1 = '2')) ||
  (c0 = '0' && ('1' ≤ c1 && c1 ≤ '9'))

/-- strptime %m field (same committing argument as for parseDay). -/
def parseMonth : List Char → Option (Nat × List Char)
  | c0 :: c1 :: rest =>
    if monthTwoDigits c0 c1 then some (10 * digitVal c0 + digitVal c1, rest)
    else if '1' ≤ c0 && c0 ≤ '9' then some (digitVal c0, c1 :: rest)
    else none
  | [c0] => if '1' ≤ c0 && c0 ≤ '9' then some (digitVal c0, []) else none
  | [] => none

/-- strptime %Y field: exactly four digits. -/
def parseYear4 : List Char → Option (Nat × List Char)
  | c0 :: c1 :: c2 :: c3 :: rest =>
    if c0.isDigit && c1.isDigit && c2.isDigit && c3.isDigit then
      some (1000 * digitVal c0 + 100 * digitVal c1 + 10 * digitVal c2 + digitVal c3, rest)
    else none
  | _ => none

/-- A literal separator character in a strptime format. -/
def expectChar (c : Char) : List Char → Option (List Char)
  | x :: rest => if x = c then some rest else none
  | [] => none

/-- The date-construction step of strptime: datetime.date raises ValueError
on an out-of-range triple, which the caller turns into trying the next
format. -/
def mkDate (y m d : Nat) : Option Ymd :=
  if validYmd ⟨y, m, d⟩ then some ⟨y, m, d⟩ else none

/-- strptime with format %d sep %m sep %Y (sep is '/' or '-'), full match. -/
def parseFmtDMY (sep : Char) (cs : List Char) : Option Ymd :=
  match parseDay cs with
  | none => none
  | some (d, cs1) =>
    match expectChar sep cs1 with
    | none => none
    | some cs2 =>
      match parseMonth cs2 with
      | none => none
      | some (m, cs3) =>
        match expectChar sep cs3 with
        | none => none
        | some cs4 =>
          match parseYear4 cs4 with
          | none => none
          | some (y, cs5) => if cs5 = [] then mkDate y m d else none

/-- strptime with format %Y-%m-%d, full match. -/
def parseFmtYMD (cs : List Char) : Option Ymd :=
  match parseYear4 cs with
  | none => none
  | some (y, cs1) =>
    match expectChar '-' cs1 with
    | none => none
    | some cs2 =>
      match parseMonth cs2 with
      | none => none
      | some (m, cs3) =>
        match expectChar '-' cs3 with
        | none => none
        | some cs4 =>
          match parseDay cs4 with
          | none => none
          | some (d, cs5) => if cs5 = [] then mkDate y m d else none

/-- strptime with format %m/%d/%Y, full match. -/
def parseFmtMDY (cs : List Char) : Option Ymd :=
  match parseMonth cs with
  | none => none
  | some (m, cs1) =>
    match expectChar '/' cs1 with
    | none => none
    | some cs2 =>
      match parseDay cs2 with
      | none => none
      | some (d, cs3) =>
        match expectChar '/' cs3 with
        | none => none
        | some cs4 =>
          match parseYear4 cs4 with
          | none => none
          | some (y, cs5) => if cs5 = [] then mkDate y m d else none

/-- holidays_provider._parse_any_date on the character list: strip, reject
empty and comment strings, then try the formats %d/%m/%Y, %Y-%m-%d, %d-%m-%Y,
%m/%d/%Y in order. -/
def parseAnyCore (cs : List Char) : Option Ymd :=
  let t := pyStrip cs
  if t = [] then none
  else if t.head? = some '#' then none
  else match parseFmtDMY '/' t with
  | some d => some d
  | none =>
    match parseFmtYMD t with
    | some d => some d
    | none =>
      match parseFmtDMY '-' t with
      | some d => some d
      | none => parseFmtMDY t

/-- holidays_provider._parse_any_date. -/
def _parse_any_date (s : String) : Option Ymd := parseAnyCore s.data

/-- Python line.split(sep, 1) with sep = ':' : text before the first colon
and text after it (only used when a colon is present). -/
def splitColon : List Char → List Char × List Char
  | [] => ([], [])
  | c :: rest =>
    if c = ':' then ([], rest)
    else
      let p := splitColon rest
      (c :: p.1, p.2)

/-- Loop body of holidays_provider._load_closures_file (dates stored as
ordinals).  A parsed range is the ordinal interval of its endpoints after the
source's d1 > d2 swap: the Python while-loop steps a date by one day (+1 on
ordinals) and compares dates, which agrees with ordinal comparison on the
valid dates the parser returns.  After adding the last day of the range the
loop increments once more; when the upper endpoint is 9999-12-31 (date.max)
that increment raises OverflowError (date value out of range), which
propagates and discards the local set, modelled as the error value. -/
def _closures_line_step (dates : Finset Nat) (raw : String) :
    Except String (Finset Nat) :=
  let line := pyStrip raw.data
  if line = [] then .ok dates
  else if line.head? = some '#' then .ok dates
  else if ':' ∈ line then
    match parseAnyCore (pyStrip (splitColon line).1),
        parseAnyCore (pyStrip (splitColon line).2) with
    | some d1, some d2 =>
      if ymdLt d2 d1 then
        if dateMaxOrdinal ≤ toOrdinal d1 then .error "date value out of range"
        else .ok (dates ∪ Finset.Icc (toOrdinal d2) (toOrdinal d1))
      else
        if dateMaxOrdinal ≤ toOrdinal d2 then .error "date value out of range"
        else .ok (dates ∪ Finset.Icc (toOrdinal d1) (toOrdinal d2))
    | _, _ => .ok dates
  else
    match parseAnyCore line with
    | some d => .ok (insert (toOrdinal d) dates)
    | none => .ok dates

/-- holidays_provider._load_closures_file: none models a file that does not
exist (the source returns the empty set before reading), some gives the
file's lines (text.splitlines).  An OverflowError raised by a range ending at
date.max propagates out of the whole load. -/
def _load_closures_file (content : Option (List String)) :
    Except String (Finset Nat) :=
  match content with
  | none => .ok ∅
  | some lines => lines.foldlM _closures_line_step ∅

/-- holidays_provider.load_closures_for_year: the directory is modelled as a
map from a year to the optional content of ferie_<year>.txt.  The module
cache is omitted here: it is a transparent per-key memoization of this pure
computation and callers receive copies (caching with failure is modelled
separately for the Italy provider, where it matters). -/
def load_closures_for_year (dir : Int → Option (List String)) (y : Int) :
    Except String (Finset Nat) :=
  _load_closures_file (dir y)

/-- numpy busday test with the default Mon-Fri weekmask: the ordinal's
weekday is Monday..Friday and the ordinal is not in the holidays array. -/
def busdayOk (hol : List Nat) (o : Nat) : Bool :=
  decide (pyWeekday o < 5) && !(decide (o ∈ hol))

/-- numpy.busday_count on ordinals: counts busdays in the half-open interval
[s, e); negative when e is before s. -/
def busday_count (hol : List Nat) (s e : Nat) : Int :=
  if s ≤ e then ((List.range (e - s)).countP (fun i => busdayOk hol (s + i)) : Int)
  else -(((List.range (s - e)).countP (fun i => busdayOk hol (e + i)) : Int))

/-- holidays_provider.get_busday_holidays: sort and deduplicate the requested
years, return the empty array for no years, extend with the two neighbor
years when requested, union Italy holidays and closures over all those years
(skipping non-positive years), and return the blocked set as a sorted
duplicate-free sequence (the source sorts the zero-padded ISO strings of the
dates, which orders valid dates chronologically, i.e. by ordinal).  An
OverflowError raised while loading a closure file propagates. -/
def get_busday_holidays (italy : Int → Finset Nat) (dir : Int → Option (List String))
    (years : List Int) (include_neighbor_years : Bool) : Except String (List Nat) :=
  match years.toFinset.sort (· ≤ ·) with
  | [] => .ok []
  | y0 :: rest =>
    let allYears :=
      if include_neighbor_years then
        (y0 - 1) :: ((y0 :: rest) ++ [(y0 :: rest).getLast (List.cons_ne_nil y0 rest) + 1])
      else y0 :: rest
    let blocked1 := allYears.foldl (fun acc yy => if 0 < yy then acc ∪ italy yy else acc)
      (∅ : Finset Nat)
    match allYears.foldlM (fun acc yy =>
        if 0 < yy then (load_closures_for_year dir yy).map (fun c => acc ∪ c)
        else .ok acc) blocked1 with
    | .error e => .error e
    | .ok blocked => .ok (if blocked = ∅ then [] else blocked.sort (· ≤ ·))

/-- workdays._years_between_inclusive: all calendar years touched by the
closed date interval, as a list. -/
def _years_between_inclusive (a b : Ymd) : List Int :=
  if a.y ≤ b.y then (List.range (b.y + 1 - a.y)).map (fun i => (a.y : Int) + i)
  else (List.range (a.y + 1 - b.y)).map (fun i => (b.y : Int) + i)

/-- workdays.count_workdays_inclusive: equal endpoints become the half-open
interval [start, start + 1 day) over the blocked dates of the start year; a
reversed interval returns the negated count of the swapped interval; a
forward interval counts busdays in [start, end + 1 day) over the blocked
dates of all years touched.  The blocked set is built first, so a failure
there (a closure range ending at date.max) propagates; after that,
end + timedelta(days=1) itself raises OverflowError (date value out of
range) when the later endpoint is 9999-12-31 (date.max). -/
def count_workdays_inclusive (italy : Int → Finset Nat) (dir : Int → Option (List String))
    (start e : Ymd) (include_neighbor_years : Bool) : Except String Int :=
  if start = e then
    match get_busday_holidays italy dir [(start.y : Int)] include_neighbor_years with
    | .error er => .error er
    | .ok hol =>
      if dateMaxOrdinal ≤ toOrdinal start then .error "date value out of range"
      else .ok (busday_count hol (toOrdinal start) (toOrdinal start + 1))
  else if h2 : ymdLt e start then
    match count_workdays_inclusive italy dir e start include_neighbor_years with
    | .error er => .error er
    | .ok n => .ok (-n)
  else
    match get_busday_holidays italy dir (_years_between_inclusive start e)
        include_neighbor_years with
    | .error er => .error er
    | .ok hol =>
      if dateMaxOrdinal ≤ toOrdinal e then .error "date value out of range"
      else .ok (busday_count hol (toOrdinal start) (toOrdinal e + 1))
termination_by (if ymdLt e start then 1 else 0)
decreasing_by
  have hn : ¬ ymdLt start e := by
    unfold ymdLt at h2 ⊢
    omega
  simp only [if_pos h2, if_neg hn]
  omega

/-- holidays_provider.italy_holidays_for_year with the module-level cache made
an explicit argument and the workalendar Italy collaborator abstracted as
provider; a provider failure (unsupported year) is an Except error.  Returns
the result together with the cache left behind by the call. -/
def italy_holidays_for_year (provider : Int → Except String (Finset Nat))
    (cache : List (Int × Finset Nat)) (year : Int) :
    Except String (Finset Nat) × List (Int × Finset Nat) :=
  match List.lookup year cache with
  | some ds => (.ok ds, cache)
  | none =>
    match provider year with
    | .ok ds => (.ok ds, (year, ds) :: cache)
    | .error e => (.error e, cache)

/-- One character of the date_utils token regex: the separator character
class (slash, dash or dot). -/
def sepClass (c : Char) : Bool := c = '/' || c = '-' || c = '.'

/-- The tail of the date_utils token regex as written in the source: after
the second number the pattern requires a literal '/', a literal '-', and then
any character except a newline (the regex text is a slash, a dash and a dot
NOT wrapped in a character class). -/
def regexTail : List Char → Bool
  | '/' :: '-' :: c :: _ => decide (c ≠ '\n')
  | _ => false

/-- Second capture group of the token regex: one or two digits (greedy, with
backtracking to the one-digit match), followed by the regex tail. -/
def matchGroup2 : List Char → Option Nat
  | c0 :: c1 :: rest =>
    if c0.isDigit && c1.isDigit && regexTail rest then
      some (10 * digitVal c0 + digitVal c1)
    else if c0.isDigit && regexTail (c1 :: rest) then some (digitVal c0)
    else none
  | _ => none

/-- Separator class character followed by the second group. -/
def matchSepGroup2 : List Char → Option Nat
  | c :: rest => if sepClass c then matchGroup2 rest else none
  | [] => none

/-- The whole date_utils token regex, anchored at the start: optional
whitespace, first group of one or two digits (greedy with backtracking),
separator class, second group, then the literal tail.  Returns the two
captured numbers on a match. -/
def matchToken (cs : List Char) : Option (Nat × Nat) :=
  match cs.dropWhile isWS with
  | c0 :: c1 :: rest =>
    if c0.isDigit && c1.isDigit then
      match matchSepGroup2 rest with
      | some b => some (10 * digitVal c0 + digitVal c1, b)
      | none =>
        match matchSepGroup2 (c1 :: rest) with
        | some b => some (digitVal c0, b)
        | none => none
    else if c0.isDigit then
      match matchSepGroup2 (c1 :: rest) with
      | some b => some (digitVal c0, b)
      | none => none
    else none
  | _ => none

/-- date_utils.extract_date_token: none input and the empty string are
falsy and give None; when the malformed regex does match, the source unpacks
the TWO regex groups into THREE names, so the call raises ValueError (modelled
as an Except error) before any year normalization or validation can run; when
the regex does not match, the function returns None. -/
def extract_date_token (date_string : Option String) :
    Except String (Option (Nat × Nat × Nat)) :=
  match date_string with
  | none => .ok none
  | some s =>
    if s = "" then .ok none
    else
      match matchToken (pyStrip s.data) with
      | none => .ok none
      | some _ => .error "not enough values to unpack"

/-- date_utils.detect_date_order: scan the sample for the first decisive
token (left component over 12: DMY, middle component over 12: MDY); an
exception from extract_date_token propagates; with no decisive token the
function warns and returns DMY. -/
def detect_date_order (dates : List String) : Except String String :=
  match dates with
  | [] => .ok "DMY"
  | d :: rest =>
    match extract_date_token (some d) with
    | .error e => .error e
    | .ok none => detect_date_order rest
    | .ok (some (a, b, _)) =>
      if a > 12 then .ok "DMY"
      else if b > 12 then .ok "MDY"
      else detect_date_order rest

/-- Effective years as the spec words them: the requested years plus
min(years) - 1 and max(years) + 1 when neighbor years are included, with
non-positive years excluded. -/
def effective_years_spec (years : List Int) (inb : Bool) : Finset Int :=
  if h : years.toFinset.Nonempty then
    (if inb then
        insert (years.toFinset.min' h - 1) (insert (years.toFinset.max' h + 1) years.toFinset)
      else years.toFinset).filter (fun yy => 0 < yy)
  else ∅

/-- Two-digit zero-padded decimal rendering of n < 100. -/
def twoDigits (n : Nat) : List Char :=
  [Char.ofNat (48 + n / 10), Char.ofNat (48 + n % 10)]

theorem ymdLt_asymm {a b : Ymd} (h : ymdLt a b) : ¬ ymdLt b a := by
  unfold ymdLt at *; omega

theorem ymdLt_ne {a b : Ymd} (h : ymdLt a b) : a ≠ b := by
  intro he; subst he; unfold ymdLt at h; omega

theorem ymdLt_total {a b : Ymd} (h : a ≠ b) : ymdLt a b ∨ ymdLt b a := by
  cases a with
  | mk ay am ad =>
    cases b with
    | mk by' bm bd =>
      have h' : ¬(ay = by' ∧ am = bm ∧ ad = bd) := by
        intro hc
        exact h (by rw [hc.1, hc.2.1, hc.2.2])
      show (ay < by' ∨ (ay = by' ∧ (am < bm ∨ (am = bm ∧ ad < bd)))) ∨
        (by' < ay ∨ (by' = ay ∧ (bm < am ∨ (bm = am ∧ bd < ad))))
      omega

theorem daysInMonth_pos (y m : Nat) : 1 ≤ daysInMonth y m := by
  unfold daysInMonth; split_ifs <;> omega

theorem daysBeforeMonth_succ (y m : Nat) (h : 1 ≤ m) :
    daysBeforeMonth y (m + 1) = daysBeforeMonth y m + daysInMonth y m := by
  match m, h with
  | Nat.succ k, _ => rfl

theorem daysBeforeMonth_le_succ (y m : Nat) :
    daysBeforeMonth y m ≤ daysBeforeMonth y (m + 1) := by
  match m with
  | 0 => simp [daysBeforeMonth]
  | Nat.succ k =>
    rw [daysBeforeMonth_succ y (k + 1) (by omega)]
    simp only [Nat.succ_eq_add_one]
    omega

theorem daysBeforeMonth_mono (y : Nat) : ∀ {m m' : Nat}, m ≤ m' →
    daysBeforeMonth y m ≤ daysBeforeMonth y m' := by
  intro m m' h
  induction h with
  | refl => exact le_refl _
  | step _ ih => exact le_trans ih (daysBeforeMonth_le_succ y _)

theorem isLeap_iff (y : Nat) :
    isLeap y = true ↔ ((y % 4 = 0 ∧ y % 100 ≠ 0) ∨ y % 400 = 0) := by
  unfold isLeap
  simp [Bool.or_eq_true, Bool.and_eq_true, beq_iff_eq, bne_iff_ne]

theorem daysBeforeMonth_year (y : Nat) :
    daysBeforeMonth y 13 = 365 + (if isLeap y then 1 else 0) := by
  rw [show (13 : Nat) = 12 + 1 from rfl, daysBeforeMonth_succ y 12 (by omega)]
  rw [show (12 : Nat) = 11 + 1 from rfl, daysBeforeMonth_succ y 11 (by omega)]
  rw [show (11 : Nat) = 10 + 1 from rfl, daysBeforeMonth_succ y 10 (by omega)]
  rw [show (10 : Nat) = 9 + 1 from rfl, daysBeforeMonth_succ y 9 (by omega)]
  rw [show (9 : Nat) = 8 + 1 from rfl, daysBeforeMonth_succ y 8 (by omega)]
  rw [show (8 : Nat) = 7 + 1 from rfl, daysBeforeMonth_succ y 7 (by omega)]
  rw [show (7 : Nat) = 6 + 1 from rfl, daysBeforeMonth_succ y 6 (by omega)]
  rw [show (6 : Nat) = 5 + 1 from rfl, daysBeforeMonth_succ y 5 (by omega)]
  rw [show (5 : Nat) = 4 + 1 from rfl, daysBeforeMonth_succ y 4 (by omega)]
  rw [show (4 : Nat) = 3 + 1 from rfl, daysBeforeMonth_succ y 3 (by omega)]
  rw [show (3 : Nat) = 2 + 1 from rfl, daysBeforeMonth_succ y 2 (by omega)]
  rw [show (2 : Nat) = 1 + 1 from rfl, daysBeforeMonth_succ y 1 (by omega)]
  cases h : isLeap y <;> simp [daysBeforeMonth, daysInMonth, h]

theorem daysBeforeYear_succ (y : Nat) (h : 1 ≤ y) :
    daysBeforeYear (y + 1) = daysBeforeYear y + 365 + (if isLeap y then 1 else 0) := by
  obtain ⟨a, rfl⟩ : ∃ a, y = a + 1 := ⟨y - 1, by omega⟩
  unfold daysBeforeYear
  simp only [Nat.add_sub_cancel]
  rw [Nat.succ_div a 4, Nat.succ_div a 100, Nat.succ_div a 400]
  have hleap : (if isLeap (a + 1) then (1 : Nat) else 0) =
      (if (((a + 1) % 4 = 0 ∧ (a + 1) % 100 ≠ 0) ∨ (a + 1) % 400 = 0) then 1 else 0) := by
    by_cases hl : isLeap (a + 1) = true
    · rw [if_pos hl, if_pos ((isLeap_iff (a + 1)).mp hl)]
    · rw [if_neg hl, if_neg (fun hc => hl ((isLeap_iff (a + 1)).mpr hc))]
  rw [hleap]
  split_ifs <;> omega

theorem daysBeforeYear_mono : ∀ {y y' : Nat}, 1 ≤ y → y ≤ y' →
    daysBeforeYear y ≤ daysBeforeYear y' := by
  intro y y' h1 h
  induction h with
  | refl => exact le_refl _
  | step hk ih =>
    rename_i k
    refine le_trans ih ?_
    rw [daysBeforeYear_succ k (le_trans h1 hk)]
    omega

theorem toOrdinal_le_year_end {x : Ymd} (hv : validYmd x) :
    toOrdinal x ≤ daysBeforeYear (x.y + 1) := by
  obtain ⟨h1, _, h3, h4, _, h6⟩ := hv
  have hb : daysBeforeMonth x.y x.m + daysInMonth x.y x.m ≤
      365 + (if isLeap x.y then 1 else 0) := by
    rw [← daysBeforeMonth_succ x.y x.m h3, ← daysBeforeMonth_year x.y]
    exact daysBeforeMonth_mono x.y (by omega)
  rw [daysBeforeYear_succ x.y h1]
  unfold toOrdinal
  omega

theorem toOrdinal_lt_of_ymdLt {a b : Ymd} (ha : validYmd a) (hb : validYmd b)
    (h : ymdLt a b) : toOrdinal a < toOrdinal b := by
  obtain ⟨ha1, _, ha3, ha4, ha5, ha6⟩ := ha
  rcases h with hy | ⟨hy, hmd⟩
  · have h1 : toOrdinal a ≤ daysBeforeYear (a.y + 1) :=
      toOrdinal_le_year_end ⟨ha1, by omega, ha3, ha4, ha5, ha6⟩
    have h2 : daysBeforeYear (a.y + 1) ≤ daysBeforeYear b.y :=
      daysBeforeYear_mono (by omega) (by omega)
    have h3 : daysBeforeYear b.y < toOrdinal b := by
      unfold toOrdinal
      have := hb.2.2.2.2.1
      omega
    omega
  · rcases hmd with hm | ⟨hm, hd⟩
    · have h1 : daysBeforeMonth a.y a.m + a.d ≤ daysBeforeMonth a.y (a.m + 1) := by
        rw [daysBeforeMonth_succ a.y a.m ha3]; omega
      have h2 : daysBeforeMonth a.y (a.m + 1) ≤ daysBeforeMonth a.y b.m :=
        daysBeforeMonth_mono a.y (by omega)
      have h3 : 1 ≤ b.d := hb.2.2.2.2.1
      unfold toOrdinal
      rw [← hy]
      omega
    · unfold toOrdinal
      rw [← hy, ← hm]
      omega

theorem toOrdinal_lt_iff {a b : Ymd} (ha : validYmd a) (hb : validYmd b) :
    ymdLt a b ↔ toOrdinal a < toOrdinal b := by
  constructor
  · exact toOrdinal_lt_of_ymdLt ha hb
  · intro h
    by_contra hn
    rcases eq_or_ne a b with rfl | hne
    · omega
    · rcases ymdLt_total hne with hab | hba
      · exact hn hab
      · exact absurd (toOrdinal_lt_of_ymdLt hb ha hba) (by omega)

theorem count_eq_same (italy : Int → Finset Nat) (dir : Int → Option (List String))
    (d : Ymd) (inb : Bool) :
    count_workdays_inclusive italy dir d d inb =
      match get_busday_holidays italy dir [(d.y : Int)] inb with
      | .error er => .error er
      | .ok hol =>
        if dateMaxOrdinal ≤ toOrdinal d then .error "date value out of range"
        else .ok (busday_count hol (toOrdinal d) (toOrdinal d + 1)) := by
  unfold count_workdays_inclusive
  simp

theorem count_eq_reversed (italy : Int → Finset Nat) (dir : Int → Option (List String))
    {start e : Ymd} (inb : Bool) (h2 : ymdLt e start) :
    count_workdays_inclusive italy dir start e inb =
      match count_workdays_inclusive italy dir e start inb with
      | .error er => .error er
      | .ok n => .ok (-n) := by
  have hne : start ≠ e := (ymdLt_ne h2).symm
  conv_lhs => rw [count_workdays_inclusive.eq_def]
  rw [if_neg hne, dif_pos h2]

theorem count_eq_forward (italy : Int → Finset Nat) (dir : Int → Option (List String))
    {start e : Ymd} (inb : Bool) (hne : start ≠ e) (hnr : ¬ ymdLt e start) :
    count_workdays_inclusive italy dir start e inb =
      match get_busday_holidays italy dir (_years_between_inclusive start e) inb with
      | .error er => .error er
      | .ok hol =>
        if dateMaxOrdinal ≤ toOrdinal e then .error "date value out of range"
        else .ok (busday_count hol (toOrdinal start) (toOrdinal e + 1)) := by
  conv_lhs => rw [count_workdays_inclusive.eq_def]
  rw [if_neg hne, dif_neg hnr]

theorem busdayOk_eq_true (hol : List Nat) (o : Nat) :
    busdayOk hol o = true ↔ (pyWeekday o < 5 ∧ o ∉ hol) := by
  simp [busdayOk]

theorem busday_count_single (hol : List Nat) (o : Nat) :
    busday_count hol o (o + 1) = if pyWeekday o < 5 ∧ o ∉ hol then 1 else 0 := by
  unfold busday_count
  rw [if_pos (by omega)]
  have h1 : o + 1 - o = 1 := by omega
  rw [h1, show List.range 1 = [0] from rfl]
  simp only [List.countP_cons, List.countP_nil, Nat.add_zero, Nat.zero_add]
  by_cases hp : pyWeekday o < 5 ∧ o ∉ hol
  · have hb : busdayOk hol o = true := (busdayOk_eq_true hol o).mpr hp
    simp [hb, hp]
  · have hb : busdayOk hol o = false := by
      cases hq : busdayOk hol o
      · rfl
      · exact absurd ((busdayOk_eq_true hol o).mp hq) hp
    simp [hb, hp]

theorem countP_shift_eq_card_filter_Icc (p : Nat → Bool) (s : Nat) : ∀ n : Nat,
    (List.range (n + 1)).countP (fun i => p (s + i)) =
      ((Finset.Icc s (s + n)).filter (fun o => p o = true)).card := by
  intro n
  induction n with
  | zero =>
    rw [show List.range (0 + 1) = [0] from rfl]
    simp only [List.countP_cons, List.countP_nil, Nat.add_zero, Nat.zero_add, Finset.Icc_self]
    by_cases hp : p s = true
    · simp [Finset.filter_singleton, hp]
    · simp [Finset.filter_singleton, hp]
  | succ k ih =>
    rw [List.range_succ, List.countP_append, ih]
    have hIcc : Finset.Icc s (s + (k + 1)) = insert (s + k + 1) (Finset.Icc s (s + k)) := by
      rw [← Nat.add_assoc]
      exact (Nat.Icc_insert_succ_right (by omega)).symm
    rw [hIcc, Finset.filter_insert]
    simp only [List.countP_cons, List.countP_nil, Nat.zero_add, ← Nat.add_assoc]
    split_ifs with hp
    · rw [Finset.card_insert_of_not_mem]
      · simp only [Finset.mem_filter, Finset.mem_Icc]
        rintro ⟨⟨u1, u2⟩, u3⟩
        omega
    · omega

theorem count_forward_spec (italy : Int → Finset Nat) (dir : Int → Option (List String))
    (inb : Bool) (hol : List Nat) {a b : Ymd} (ha : validYmd a) (hb : validYmd b)
    (h : ymdLt a b) (hmax : ymdLt b ⟨9999, 12, 31⟩)
    (hok : get_busday_holidays italy dir (_years_between_inclusive a b) inb = .ok hol) :
    count_workdays_inclusive italy dir a b inb =
      .ok (((Finset.Icc (toOrdinal a) (toOrdinal b)).filter
        (fun o => pyWeekday o < 5 ∧ o ∉ hol)).card : Int) := by
  have hne : a ≠ b := ymdLt_ne h
  have hnr : ¬ ymdLt b a := ymdLt_asymm h
  rw [count_eq_forward italy dir inb hne hnr, hok]
  have hbmax : toOrdinal b < dateMaxOrdinal :=
    toOrdinal_lt_of_ymdLt hb (by decide) hmax
  have hord : toOrdinal a ≤ toOrdinal b := le_of_lt (toOrdinal_lt_of_ymdLt ha hb h)
  dsimp only
  rw [if_neg (by omega)]
  have hbus : busday_count hol (toOrdinal a) (toOrdinal b + 1) =
      (((Finset.Icc (toOrdinal a) (toOrdinal b)).filter
        (fun o => pyWeekday o < 5 ∧ o ∉ hol)).card : Int) := by
    unfold busday_count
    rw [if_pos (by omega)]
    have hn : toOrdinal b + 1 - toOrdinal a = (toOrdinal b - toOrdinal a) + 1 := by omega
    rw [hn, countP_shift_eq_card_filter_Icc]
    have he : toOrdinal a + (toOrdinal b - toOrdinal a) = toOrdinal b := by omega
    rw [he]
    have hfc : (Finset.Icc (toOrdinal a) (toOrdinal b)).filter
        (fun o => busdayOk hol o = true) =
        (Finset.Icc (toOrdinal a) (toOrdinal b)).filter
        (fun o => pyWeekday o < 5 ∧ o ∉ hol) :=
      Finset.filter_congr (fun o _ => busdayOk_eq_true _ o)
    rw [hfc]
  rw [hbus]

theorem foldl_union_empty (l : List Int) (acc : Finset Nat) :
    l.foldl (fun acc yy => if 0 < yy then acc ∪ (∅ : Finset Nat) else acc) acc = acc := by
  induction l generalizing acc with
  | nil => rfl
  | cons y ys ih =>
    simp only [List.foldl_cons]
    rw [show (if 0 < y then acc ∪ (∅ : Finset Nat) else acc) = acc by
      split_ifs <;> simp]
    exact ih acc

theorem foldlM_okEmpty (l : List Int) (acc : Finset Nat) :
    l.foldlM (fun (a : Finset Nat) (yy : Int) =>
      if 0 < yy then (Except.ok (∅ : Finset Nat)).map (fun c => a ∪ c)
      else (.ok a : Except String (Finset Nat))) acc = .ok acc := by
  induction l generalizing acc with
  | nil => rfl
  | cons y ys ih =>
    rw [List.foldlM_cons]
    have hstep : (if 0 < y then (Except.ok (∅ : Finset Nat)).map (fun c => acc ∪ c)
        else (.ok acc : Except String (Finset Nat))) = .ok acc := by
      split_ifs
      · show Except.ok (acc ∪ ∅) = Except.ok acc
        rw [Finset.union_empty]
      · rfl
    show (if 0 < y then (Except.ok (∅ : Finset Nat)).map (fun c => acc ∪ c)
        else (.ok acc : Except String (Finset Nat))) >>= _ = .ok acc
    rw [hstep]
    exact ih acc

theorem get_busday_holidays_empty (years : List Int) (inb : Bool) :
    get_busday_holidays (fun _ => ∅) (fun _ => none) years inb = .ok [] := by
  have h2 : ∀ (l : List Int) (acc : Finset Nat),
      l.foldlM (fun (acc : Finset Nat) (yy : Int) =>
        if 0 < yy then
          (load_closures_for_year (fun _ => none) yy).map (fun c => acc ∪ c)
        else .ok acc) acc = .ok acc := by
    intro l acc
    have he : (fun (acc : Finset Nat) (yy : Int) =>
        if 0 < yy then
          (load_closures_for_year (fun _ => none) yy).map (fun c => acc ∪ c)
        else (.ok acc : Except String (Finset Nat))) =
        (fun (a : Finset Nat) (yy : Int) =>
          if 0 < yy then (Except.ok (∅ : Finset Nat)).map (fun c => a ∪ c)
          else (.ok a : Except String (Finset Nat))) := by
      funext a yy
      rfl
    rw [he]
    exact foldlM_okEmpty l acc
  unfold get_busday_holidays
  cases hys : Finset.sort (fun x1 x2 => x1 ≤ x2) years.toFinset with
  | nil => rfl
  | cons y0 rest =>
    dsimp only
    rw [foldl_union_empty, h2]
    simp

/-- C1 counterexample: the forward count is not total: with end = 9999-12-31
(the maximal representable date), end + timedelta(days=1) in the source
overflows past date.max and the call raises OverflowError
("date value out of range") instead of returning a count, even though
start < end. -/
theorem claim_c1_counterexample :
    count_workdays_inclusive (fun _ => ∅) (fun _ => none)
      ⟨9999, 12, 30⟩ ⟨9999, 12, 31⟩ true = .error "date value out of range" := by
  rw [count_eq_forward (fun _ => ∅) (fun _ => none) true (by decide) (by decide),
    get_busday_holidays_empty]
  rfl

/-- C1 (amended): for start < end with end strictly before the maximal date
9999-12-31 (so the exclusive upper bound end + one day does not overflow),
whenever the blocked-list computation for the touched years succeeds with
list hol, count_workdays_inclusive returns .ok of the number of calendar days
in [start, end] inclusive whose weekday is Monday-Friday and that are not in
hol, for every closures directory, Italy provider and neighbor-year flag; on
end = 9999-12-31 the source instead raises OverflowError (see the
counterexample). With empty providers, count('2025-10-07', '2025-10-23')
= .ok 13. -/
theorem claim_c1_count_forward :
    (∀ (italy : Int → Finset Nat) (dir : Int → Option (List String)) (a b : Ymd)
      (inb : Bool) (hol : List Nat),
      validYmd a → validYmd b → ymdLt a b → ymdLt b ⟨9999, 12, 31⟩ →
      get_busday_holidays italy dir (_years_between_inclusive a b) inb = .ok hol →
      count_workdays_inclusive italy dir a b inb =
        .ok (((Finset.Icc (toOrdinal a) (toOrdinal b)).filter
          (fun o => pyWeekday o < 5 ∧ o ∉ hol)).card : Int)) ∧
    count_workdays_inclusive (fun _ => ∅) (fun _ => none) ⟨2025, 10, 7⟩ ⟨2025, 10, 23⟩ true
      = .ok 13 := by
  constructor
  · intro italy dir a b inb hol ha hb h hmax hok
    exact count_forward_spec italy dir inb hol ha hb h hmax hok
  · rw [@count_forward_spec (fun _ => ∅) (fun _ => none) true []
      ⟨2025, 10, 7⟩ ⟨2025, 10, 23⟩ (by decide) (by decide) (by decide) (by decide)
      (get_busday_holidays_empty _ _)]
    simp only [Except.ok.injEq]
    decide

theorem claim_c1_count_forward_witness :
    validYmd ⟨2025, 10, 7⟩ ∧ validYmd ⟨2025, 10, 23⟩ ∧
    ymdLt ⟨2025, 10, 7⟩ ⟨2025, 10, 23⟩ ∧ ymdLt ⟨2025, 10, 23⟩ ⟨9999, 12, 31⟩ ∧
    get_busday_holidays (fun _ => ∅) (fun _ => none)
      (_years_between_inclusive ⟨2025, 10, 7⟩ ⟨2025, 10, 23⟩) true = .ok [] ∧
    count_workdays_inclusive (fun _ => ∅) (fun _ => none) ⟨2025, 10, 7⟩ ⟨2025, 10, 23⟩ true =
      .ok (((Finset.Icc (toOrdinal ⟨2025, 10, 7⟩) (toOrdinal ⟨2025, 10, 23⟩)).filter
        (fun o => pyWeekday o < 5 ∧ o ∉ ([] : List Nat))).card : Int) :=
  ⟨by decide, by decide, by decide, by decide, get_busday_holidays_empty _ _,
    claim_c1_count_forward.1 (fun _ => ∅) (fun _ => none) ⟨2025, 10, 7⟩ ⟨2025, 10, 23⟩ true []
      (by decide) (by decide) (by decide) (by decide) (get_busday_holidays_empty _ _)⟩

/-- C2 counterexample: antisymmetry fails on equal endpoints: on the Tuesday
2025-10-07 with no holidays or closures, count(d, d) = .ok 1, which is not
its own Except-mapped negation .ok (-1). -/
theorem claim_c2_counterexample :
    ¬ (count_workdays_inclusive (fun _ => ∅) (fun _ => none) ⟨2025, 10, 7⟩ ⟨2025, 10, 7⟩ true
      = Except.map (fun n : Int => -n)
          (count_workdays_inclusive (fun _ => ∅) (fun _ => none)
            ⟨2025, 10, 7⟩ ⟨2025, 10, 7⟩ true)) := by
  rw [count_eq_same, get_busday_holidays_empty]
  intro h
  have h2 : (Except.ok (1 : Int) : Except String Int) = .ok (-1) := h
  exact absurd (Except.ok.inj h2) (by decide)

/-- C2 (amended): for distinct dates a ≠ b, count(a, b) equals count(b, a)
with the successful value negated (and any error propagated unchanged, which
also covers the pairs where the reversed call overflows on 9999-12-31); for
a = b both orders are the same single-day count, which is .ok 1 on an
unblocked weekday and hence not equal to its negation. -/
theorem claim_c2_antisymmetry (italy : Int → Finset Nat) (dir : Int → Option (List String))
    (a b : Ymd) (inb : Bool) (hne : a ≠ b) :
    count_workdays_inclusive italy dir a b inb =
      Except.map (fun n : Int => -n) (count_workdays_inclusive italy dir b a inb) := by
  rcases ymdLt_total hne with hab | hba
  · rw [count_eq_reversed italy dir inb hab]
    cases count_workdays_inclusive italy dir a b inb with
    | error er => rfl
    | ok n =>
      show Except.ok n = Except.ok (-(-n))
      rw [neg_neg]
  · rw [count_eq_reversed italy dir inb hba]
    cases count_workdays_inclusive italy dir b a inb with
    | error er => rfl
    | ok n => rfl

theorem claim_c2_antisymmetry_witness :
    ((⟨2025, 10, 7⟩ : Ymd) ≠ ⟨2025, 10, 8⟩) ∧
    count_workdays_inclusive (fun _ => ∅) (fun _ => none) ⟨2025, 10, 7⟩ ⟨2025, 10, 8⟩ true =
      Except.map (fun n : Int => -n)
        (count_workdays_inclusive (fun _ => ∅) (fun _ => none)
          ⟨2025, 10, 8⟩ ⟨2025, 10, 7⟩ true) :=
  ⟨by decide,
    claim_c2_antisymmetry (fun _ => ∅) (fun _ => none) ⟨2025, 10, 7⟩ ⟨2025, 10, 8⟩ true
      (by decide)⟩

/-- C4 counterexample: on the maximal date 9999-12-31 the single-day count is
not returned at all: the source computes start + timedelta(days=1) for the
exclusive upper bound, which overflows past date.max, so the call raises
OverflowError ("date value out of range"). -/
theorem claim_c4_counterexample :
    count_workdays_inclusive (fun _ => ∅) (fun _ => none)
      ⟨9999, 12, 31⟩ ⟨9999, 12, 31⟩ true = .error "date value out of range" := by
  rw [count_eq_same, get_busday_holidays_empty]
  rfl

/-- C4 (amended): for a date d strictly before the maximal date (so d + one
day does not overflow), when the blocked-list computation for the singleton
year list succeeds with list hol, count_workdays_inclusive(d, d) is .ok 1
exactly when d is a Monday-to-Friday weekday whose ordinal is outside hol,
and .ok 0 otherwise; a Saturday or Sunday ordinal has pyWeekday 5 or 6, so
the condition fails and the count is 0. On 9999-12-31 the source instead
raises OverflowError (see the counterexample). -/
theorem claim_c4_single_day (italy : Int → Finset Nat) (dir : Int → Option (List String))
    (d : Ymd) (inb : Bool) (hol : List Nat)
    (hok : get_busday_holidays italy dir [(d.y : Int)] inb = .ok hol)
    (hd : toOrdinal d < dateMaxOrdinal) :
    count_workdays_inclusive italy dir d d inb =
      .ok (if pyWeekday (toOrdinal d) < 5 ∧ toOrdinal d ∉ hol then 1 else 0) := by
  rw [count_eq_same, hok]
  dsimp only
  rw [if_neg (by omega), busday_count_single]

theorem claim_c4_single_day_witness :
    get_busday_holidays (fun _ => ∅) (fun _ => none) [(2025 : Int)] true = .ok [] ∧
    toOrdinal ⟨2025, 10, 7⟩ < dateMaxOrdinal ∧
    count_workdays_inclusive (fun _ => ∅) (fun _ => none) ⟨2025, 10, 7⟩ ⟨2025, 10, 7⟩ true =
      .ok (if pyWeekday (toOrdinal ⟨2025, 10, 7⟩) < 5 ∧
        toOrdinal ⟨2025, 10, 7⟩ ∉ ([] : List Nat) then 1 else 0) :=
  ⟨get_busday_holidays_empty _ _, by decide,
    claim_c4_single_day (fun _ => ∅) (fun _ => none) ⟨2025, 10, 7⟩ true []
      (get_busday_holidays_empty _ _) (by decide)⟩

/-- C7: when the closure file for a year does not exist in the base
directory, load_closures_for_year returns .ok of the empty set: the source
returns before any read, so no line processing (and hence no error path) is
reached. -/
theorem claim_c7_missing_file (dir : Int → Option (List String)) (y : Int)
    (h : dir y = none) : load_closures_for_year dir y = .ok ∅ := by
  unfold load_closures_for_year _load_closures_file
  rw [h]

theorem claim_c7_missing_file_witness :
    ((fun _ => none) : Int → Option (List String)) 2025 = none ∧
    load_closures_for_year (fun _ => none) 2025 = .ok ∅ :=
  ⟨rfl, claim_c7_missing_file (fun _ => none) 2025 rfl⟩

/-- C8: when the Italy calendar provider fails for a year that is not cached,
the failure propagates to the caller, no cache entry is written for that
year, and a subsequent call on the resulting cache queries the provider
afresh (returning exactly what the provider then returns). -/
theorem claim_c8_provider_failure (provider : Int → Except String (Finset Nat))
    (cache : List (Int × Finset Nat)) (year : Int) (e : String)
    (hmiss : List.lookup year cache = none) (herr : provider year = .error e) :
    italy_holidays_for_year provider cache year = (.error e, cache) ∧
    ∀ p2 : Int → Except String (Finset Nat),
      (italy_holidays_for_year p2 (italy_holidays_for_year provider cache year).2 year).1
        = p2 year := by
  have hfst : italy_holidays_for_year provider cache year = (.error e, cache) := by
    unfold italy_holidays_for_year
    rw [hmiss, herr]
  refine ⟨hfst, ?_⟩
  intro p2
  rw [hfst]
  unfold italy_holidays_for_year
  rw [hmiss]
  cases hp : p2 year <;> rfl

theorem claim_c8_provider_failure_witness :
    List.lookup (2025 : Int) ([] : List (Int × Finset Nat)) = none ∧
    ((fun _ => Except.error "unsupported year") : Int → Except String (Finset Nat)) 2025
      = .error "unsupported year" ∧
    italy_holidays_for_year (fun _ => .error "unsupported year") [] 2025
      = (.error "unsupported year", []) ∧
    (italy_holidays_for_year (fun _ => .ok ∅)
        (italy_holidays_for_year (fun _ => .error "unsupported year") [] 2025).2 2025).1
      = (fun _ => Except.ok (∅ : Finset Nat)) 2025 :=
  ⟨rfl, rfl,
    (claim_c8_provider_failure (fun _ => .error "unsupported year") [] 2025
      "unsupported year" rfl rfl).1,
    (claim_c8_provider_failure (fun _ => .error "unsupported year") [] 2025
      "unsupported year" rfl rfl).2 (fun _ => .ok ∅)⟩

/-- C9 (code evaluated at the failing input): on the sample ["12/25/2024"]
detect_date_order returns DMY although the middle component 25 exceeds 12 and
the documented heuristic promises MDY: extract_date_token's malformed regex
(two capture groups, a mandatory literal slash-dash after the second number)
cannot match an ordinary date token, so it yields None and the ambiguous
default DMY is returned. -/
theorem claim_c9_detect_order_bug :
    detect_date_order ["12/25/2024"] = .ok "DMY" ∧
    extract_date_token (some "12/25/2024") = .ok none := by
  constructor <;> rfl

/-- C5 counterexample: the two-digit-year token 07/10/25 is not parsed with
2000 added to the year (it would then be 2025-10-07); the closure-file parser
rejects it outright, because all four strptime formats demand a four-digit
year. -/
theorem claim_c5_counterexample :
    _parse_any_date "07/10/25" = none ∧
    _parse_any_date "07/10/25" ≠ some ⟨2025, 10, 7⟩ := by
  constructor
  · rfl
  · intro h
    cases h

/-- C5 (amended): a date token whose year part has two digits is rejected by
the closure-file parser (parsed to None) in each of the four accepted format
shapes, for every two-digit year part; no +2000 normalization happens in the
closure-file parser. -/
theorem claim_c5_two_digit_year_rejected : ∀ yy : Nat, yy < 100 →
    _parse_any_date (String.mk (['0', '7', '/', '1', '0', '/'] ++ twoDigits yy)) = none ∧
    _parse_any_date (String.mk (twoDigits yy ++ ['-', '1', '0', '-', '0', '7'])) = none ∧
    _parse_any_date (String.mk (['0', '7', '-', '1', '0', '-'] ++ twoDigits yy)) = none ∧
    _parse_any_date (String.mk (['1', '0', '/', '0', '7', '/'] ++ twoDigits yy)) = none := by
  decide

theorem claim_c5_two_digit_year_rejected_witness :
    (24 : Nat) < 100 ∧
    (_parse_any_date (String.mk (['0', '7', '/', '1', '0', '/'] ++ twoDigits 24)) = none ∧
     _parse_any_date (String.mk (twoDigits 24 ++ ['-', '1', '0', '-', '0', '7'])) = none ∧
     _parse_any_date (String.mk (['0', '7', '-', '1', '0', '-'] ++ twoDigits 24)) = none ∧
     _parse_any_date (String.mk (['1', '0', '/', '0', '7', '/'] ++ twoDigits 24)) = none) :=
  ⟨by decide, claim_c5_two_digit_year_rejected 24 (by decide)⟩

theorem sorted_le_getLast : ∀ {l : List Int} (h : l ≠ []),
    List.Sorted (fun a b => a ≤ b) l → ∀ {x : Int}, x ∈ l → x ≤ l.getLast h := by
  intro l
  induction l with
  | nil => intro h; exact absurd rfl h
  | cons a tl ih =>
    intro h hs x hx
    match tl, hx with
    | [], hx =>
      have : x = a := by
        rcases List.mem_cons.mp hx with h1 | h1
        · exact h1
        · exact absurd h1 (List.not_mem_nil x)
      simp [this]
    | b :: tl', hx =>
      rw [List.getLast_cons (List.cons_ne_nil b tl')]
      rcases List.mem_cons.mp hx with h1 | h1
      · subst h1
        have hxb : x ≤ b := List.rel_of_sorted_cons hs b (List.mem_cons_self b tl')
        have hbl : b ≤ (b :: tl').getLast (List.cons_ne_nil b tl') :=
          ih (List.cons_ne_nil b tl') (List.sorted_cons.mp hs).2
            (List.mem_cons_self b tl')
        omega
      · exact ih (List.cons_ne_nil b tl') (List.sorted_cons.mp hs).2 h1

theorem mem_guarded_foldl (f : Int → Finset Nat) (l : List Int) (acc : Finset Nat) (o : Nat) :
    o ∈ l.foldl (fun a yy => if 0 < yy then a ∪ f yy else a) acc ↔
      o ∈ acc ∨ ∃ yy ∈ l, 0 < yy ∧ o ∈ f yy := by
  induction l generalizing acc with
  | nil => simp
  | cons yh yt ih =>
    simp only [List.foldl_cons]
    rw [ih]
    by_cases hy : 0 < yh
    · simp only [if_pos hy, Finset.mem_union]
      simp only [List.mem_cons, exists_eq_or_imp, hy, true_and]
      tauto
    · simp only [if_neg hy]
      simp only [List.mem_cons, exists_eq_or_imp, hy, false_and, false_or]

theorem mem_sorted_or_nil (s : Finset Nat) (o : Nat) :
    o ∈ (if s = ∅ then ([] : List Nat) else Finset.sort (fun a b => a ≤ b) s) ↔ o ∈ s := by
  split_ifs with hb
  · rw [hb]
    simp
  · exact Finset.mem_sort _

theorem foldlM_years_mem (g : Int → Except String (Finset Nat)) :
    ∀ (l : List Int) (acc : Finset Nat) (bl : Finset Nat),
    l.foldlM (fun a yy => if 0 < yy then (g yy).map (fun c => a ∪ c) else .ok a) acc
      = .ok bl →
    ∀ o : Nat, o ∈ bl ↔ o ∈ acc ∨ ∃ yy ∈ l, 0 < yy ∧ ∃ s, g yy = .ok s ∧ o ∈ s := by
  intro l
  induction l with
  | nil =>
    intro acc bl h o
    have hb : acc = bl := Except.ok.inj h
    subst hb
    simp
  | cons y ys ih =>
    intro acc bl h o
    simp only [List.foldlM_cons] at h
    by_cases hy : 0 < y
    · rw [if_pos hy] at h
      cases hg : g y with
      | error e =>
        rw [hg] at h
        have h2 : (Except.error e : Except String (Finset Nat)) = .ok bl := h
        exact Except.noConfusion h2
      | ok s =>
        rw [hg] at h
        have h2 : ys.foldlM
            (fun a yy => if 0 < yy then (g yy).map (fun c => a ∪ c) else .ok a)
            (acc ∪ s) = .ok bl := h
        rw [ih (acc ∪ s) bl h2 o]
        simp only [Finset.mem_union, List.mem_cons, exists_eq_or_imp, hy, true_and]
        constructor
        · rintro ((ha | hs2) | hrest)
          · exact Or.inl ha
          · exact Or.inr (Or.inl ⟨s, hg, hs2⟩)
          · exact Or.inr (Or.inr hrest)
        · rintro (ha | ⟨s2, hgs, hs2⟩ | hrest)
          · exact Or.inl (Or.inl ha)
          · rw [hg] at hgs
            have hss : s = s2 := Except.ok.inj hgs
            subst hss
            exact Or.inl (Or.inr hs2)
          · exact Or.inr hrest
    · rw [if_neg hy] at h
      have h2 : ys.foldlM
          (fun a yy => if 0 < yy then (g yy).map (fun c => a ∪ c) else .ok a)
          acc = .ok bl := h
      rw [ih acc bl h2 o]
      simp only [List.mem_cons, exists_eq_or_imp, hy, false_and, false_or]

/-- When get_busday_holidays succeeds, the returned sequence is strictly
sorted and its members are exactly the dates blocked for some effective year
by the Italy calendar or by a successfully loaded closure file. -/
theorem get_busday_holidays_ok_spec (italy : Int → Finset Nat)
    (dir : Int → Option (List String)) (years : List Int) (inb : Bool) (bl : List Nat)
    (h : get_busday_holidays italy dir years inb = .ok bl) :
    List.Sorted (· < ·) bl ∧
    (∀ o : Nat, o ∈ bl ↔ ∃ yy ∈ effective_years_spec years inb,
      (o ∈ italy yy ∨ ∃ s, load_closures_for_year dir yy = .ok s ∧ o ∈ s)) := by
  unfold get_busday_holidays at h
  cases hys : Finset.sort (fun x1 x2 => x1 ≤ x2) years.toFinset with
  | nil =>
    rw [hys] at h
    dsimp only at h
    have hbl : ([] : List Nat) = bl := Except.ok.inj h
    subst hbl
    have hempty : years.toFinset = ∅ := by
      ext z
      simp only [Finset.not_mem_empty, iff_false]
      intro hz
      have hzs : z ∈ Finset.sort (fun x1 x2 => x1 ≤ x2) years.toFinset :=
        (Finset.mem_sort _).mpr hz
      rw [hys] at hzs
      exact absurd hzs (List.not_mem_nil z)
    have heff : effective_years_spec years inb = ∅ := by
      unfold effective_years_spec
      rw [dif_neg (by rw [hempty]; exact Finset.not_nonempty_empty)]
    constructor
    · exact List.sorted_nil
    · intro o
      rw [heff]
      simp
  | cons y0 rest =>
    rw [hys] at h
    dsimp only at h
    split at h
    · exact Except.noConfusion h
    · rename_i blocked hfold
      have hbl := Except.ok.inj h
      subst hbl
      have hsorted : List.Sorted (fun a b => a ≤ b) (y0 :: rest) := by
        rw [← hys]
        exact Finset.sort_sorted _ _
      have hmemls : ∀ z : Int, z ∈ y0 :: rest ↔ z ∈ years.toFinset := by
        intro z
        rw [← hys]
        exact Finset.mem_sort _
      have hne : years.toFinset.Nonempty :=
        ⟨y0, (hmemls y0).mp (List.mem_cons_self y0 rest)⟩
      have hhead : y0 = years.toFinset.min' hne := by
        apply le_antisymm
        · apply Finset.le_min'
          intro y hy
          have hyls := (hmemls y).mpr hy
          rcases List.mem_cons.mp hyls with rfl | hin
          · omega
          · exact List.rel_of_sorted_cons hsorted y hin
        · exact Finset.min'_le _ _ ((hmemls y0).mp (List.mem_cons_self y0 rest))
      have hlast : (y0 :: rest).getLast (List.cons_ne_nil y0 rest)
          = years.toFinset.max' hne := by
        apply le_antisymm
        · exact Finset.le_max' _ _
            ((hmemls _).mp (List.getLast_mem (List.cons_ne_nil y0 rest)))
        · apply Finset.max'_le
          intro y hy
          exact sorted_le_getLast (List.cons_ne_nil y0 rest) hsorted ((hmemls y).mpr hy)
      have hyy : ∀ yy : Int,
          ((yy ∈ (if inb then
              (y0 - 1) :: ((y0 :: rest) ++
                [(y0 :: rest).getLast (List.cons_ne_nil y0 rest) + 1])
            else y0 :: rest)) ∧ 0 < yy) ↔
            yy ∈ effective_years_spec years inb := by
        intro yy
        unfold effective_years_spec
        rw [dif_pos hne]
        cases inb
        · simp only [Bool.false_eq_true, if_false, Finset.mem_filter]
          rw [hmemls]
        · simp only [if_true, Finset.mem_filter, Finset.mem_insert, List.mem_cons,
            List.mem_append, List.mem_singleton, List.not_mem_nil, or_false]
          have hm2 : (yy = y0 ∨ yy ∈ rest) ↔ yy ∈ years.toFinset := by
            rw [← List.mem_cons]
            exact hmemls yy
          rw [hm2, ← hhead, ← hlast]
          tauto
      constructor
      · split_ifs with hb
        · exact List.sorted_nil
        · exact Finset.sort_sorted_lt _
      · intro o
        rw [mem_sorted_or_nil,
          foldlM_years_mem (load_closures_for_year dir) _ _ _ hfold o,
          mem_guarded_foldl]
        simp only [Finset.not_mem_empty, false_or]
        constructor
        · rintro (⟨yy, hyl, hyp, hi⟩ | ⟨yy, hyl, hyp, hc⟩)
          · exact ⟨yy, (hyy yy).mp ⟨hyl, hyp⟩, Or.inl hi⟩
          · exact ⟨yy, (hyy yy).mp ⟨hyl, hyp⟩, Or.inr hc⟩
        · rintro ⟨yy, hyeff, (hi | hc)⟩
          · obtain ⟨hyl, hyp⟩ := (hyy yy).mpr hyeff
            exact Or.inl ⟨yy, hyl, hyp, hi⟩
          · obtain ⟨hyl, hyp⟩ := (hyy yy).mpr hyeff
            exact Or.inr ⟨yy, hyl, hyp, hc⟩

theorem get_busday_holidays_nil (italy : Int → Finset Nat)
    (dir : Int → Option (List String)) (inb : Bool) :
    get_busday_holidays italy dir [] inb = .ok [] := by
  unfold get_busday_holidays
  simp [Finset.sort_empty]

/-- C3 counterexample: get_busday_holidays is not total: with a closures
directory whose file for 2025 contains the range 31/12/9999:31/12/9999, the
closure load raises OverflowError, which propagates out of
get_busday_holidays in place of any sorted sequence. -/
theorem claim_c3_counterexample :
    get_busday_holidays (fun _ => ∅) (fun _ => some ["31/12/9999:31/12/9999"])
      [2025] false = .error "date value out of range" := by
  have hs : Finset.sort (fun x1 x2 => x1 ≤ x2) ([2025] : List Int).toFinset
      = [2025] := by
    have h1 : ([2025] : List Int).toFinset = {2025} := rfl
    rw [h1]
    exact Finset.sort_singleton (fun x1 x2 => x1 ≤ x2) 2025
  unfold get_busday_holidays
  rw [hs]
  rfl

/-- C3 (amended): whenever get_busday_holidays returns successfully, the
result is a strictly sorted, duplicate-free sequence whose members are
exactly the dates blocked for some effective year (the requested years plus
min(years) - 1 and max(years) + 1 when neighbor years are included, with
non-positive years excluded) by either the Italy calendar or a successfully
loaded closure file, and an empty years input yields .ok of the empty
sequence; the call is not total, though: an OverflowError raised while
loading a closure file propagates to the caller (see the counterexample). -/
theorem claim_c3_sorted_union (italy : Int → Finset Nat) (dir : Int → Option (List String))
    (years : List Int) (inb : Bool) :
    (∀ bl : List Nat, get_busday_holidays italy dir years inb = .ok bl →
      List.Sorted (· < ·) bl ∧ bl.Nodup ∧
      (∀ o : Nat, o ∈ bl ↔ ∃ yy ∈ effective_years_spec years inb,
        (o ∈ italy yy ∨ ∃ s, load_closures_for_year dir yy = .ok s ∧ o ∈ s))) ∧
    (years = [] → get_busday_holidays italy dir years inb = .ok []) := by
  constructor
  · intro bl h
    obtain ⟨hsort, hmem⟩ := get_busday_holidays_ok_spec italy dir years inb bl h
    exact ⟨hsort, hsort.nodup, hmem⟩
  · intro h
    rw [h]
    exact get_busday_holidays_nil italy dir inb

theorem claim_c3_sorted_union_witness :
    get_busday_holidays (fun _ => ∅) (fun _ => none) [] true = .ok [] ∧
    List.Sorted (· < ·) ([] : List Nat) :=
  ⟨(claim_c3_sorted_union (fun _ => ∅) (fun _ => none) [] true).2 rfl,
    ((claim_c3_sorted_union (fun _ => ∅) (fun _ => none) [] true).1 []
      ((claim_c3_sorted_union (fun _ => ∅) (fun _ => none) [] true).2 rfl)).1⟩
